import Mathlib

/-!
Verification of the crawl-and-extract engine of `src/app.py`
(Target TCIN indexing checker).

The development shallowly embeds the engine:
* `matchAt` / `findAllTcins` embed Python's
  `re.findall` with the product-URL pattern: non-overlapping
  leftmost matches, scanning left to right, `[^/]+` greedy (since the
  segment cannot cross a `/` and must be followed by the literal
  five-character separator "slash hyphen slash A hyphen", greedy
  matching with backtracking degenerates to "maximal run of non-slash
  characters followed by the literal separator"), capture the maximal
  digit run.  The pattern is: "slash p slash", a nonempty run of
  non-slash characters, the separator, then one or more digits
  (captured).
* `uniquePreserve` embeds `list(dict.fromkeys(found_tcins))`.
* `searchPages` / `search_target_keyword` embed the page loop of
  `search_target_keyword`, with the page fetcher abstracted as
  `fetch : page → attempt → Option html` (an exception while fetching,
  waiting or reading a page is `none`).  The fetcher carries an
  attempt index so that retry behaviour is expressible; the code
  itself only ever performs attempt 0 for each page.
* `runMain` embeds the driver/keyword loop of `main` as an event
  trace, and `results_matrix` / `found_count` / `total_checks` embed
  the matrix-building and statistics section of `main`.
-/

set_option maxRecDepth 200000

namespace TargetTcin

/-- Attempt to match the product-URL pattern (see module docstring) at
the head of the character list; on success return the captured digit
string and the remainder of the input after the match. -/
def matchAt (cs : List Char) : Option (String × List Char) :=
  match cs with
  | c1 :: c2 :: c3 :: rest =>
    if c1 = '/' && c2 = 'p' && c3 = '/' then
      if (rest.takeWhile (fun c => c ≠ '/')).isEmpty then none
      else
        match rest.dropWhile (fun c => c ≠ '/') with
        | d1 :: d2 :: d3 :: d4 :: d5 :: rest3 =>
          if d1 = '/' && d2 = '-' && d3 = '/' && d4 = 'A' && d5 = '-' then
            if (rest3.takeWhile Char.isDigit).isEmpty then none
            else some (String.mk (rest3.takeWhile Char.isDigit),
                       rest3.dropWhile Char.isDigit)
          else none
        | _ => none
    else none
  | _ => none

theorem matchAt_length {cs : List Char} {d : String} {rest : List Char}
    (h : matchAt cs = some (d, rest)) : rest.length < cs.length := by
  unfold matchAt at h
  split at h
  case h_2 => exact Option.noConfusion h
  case h_1 c1 c2 c3 rest0 =>
    split at h
    case isFalse => exact Option.noConfusion h
    case isTrue =>
      split at h
      case isTrue => exact Option.noConfusion h
      case isFalse =>
        split at h
        case h_2 => exact Option.noConfusion h
        case h_1 d1 d2 d3 d4 d5 rest3 heq =>
          split at h
          case isFalse => exact Option.noConfusion h
          case isTrue =>
            split at h
            case isTrue => exact Option.noConfusion h
            case isFalse =>
              rw [Option.some.injEq, Prod.mk.injEq] at h
              have h5 : rest3.length + 5 ≤ rest0.length := by
                have h6 := (List.dropWhile_sublist
                  (p := fun c => decide (c ≠ '/')) (l := rest0)).length_le
                rw [heq] at h6
                simp only [List.length_cons] at h6
                omega
              have hr : rest.length ≤ rest3.length := by
                rw [← h.2]
                exact (List.dropWhile_sublist
                  (p := Char.isDigit) (l := rest3)).length_le
              simp only [List.length_cons]
              omega

/-- Fuel-driven scanner; `fuel` is an upper bound on the recursion depth
(the input shrinks by at least one character per step, so fuel equal to
the input length makes the fuel bound unreachable). -/
def findAllTcinsAux : Nat → List Char → List String
  | 0, _ => []
  | _ + 1, [] => []
  | fuel + 1, c :: cs =>
    match matchAt (c :: cs) with
    | some dr => dr.1 :: findAllTcinsAux fuel dr.2
    | none => findAllTcinsAux fuel cs

/-- All captured groups of `re.findall` with the product-URL pattern,
in order of occurrence: at each position try to match; on success emit
the capture and resume after the match, otherwise advance one
character. -/
def findAllTcins (cs : List Char) : List String :=
  findAllTcinsAux cs.length cs

/-- `list(dict.fromkeys(l))`: scan left to right keeping each element
the first time it is seen. -/
def uniquePreserve (l : List String) : List String :=
  l.foldl (fun acc x => if x ∈ acc then acc else acc ++ [x]) []

/-- The TCIN extraction performed (inline) by `search_target_keyword`:
`found_tcins = re.findall(pattern, page_html)` followed by
`unique_tcins = list(dict.fromkeys(found_tcins))`. -/
def extractTcins (html : String) : List String :=
  uniquePreserve (findAllTcins html.data)

/-- Spec-side rendering of "de-duplicate preserving first occurrence
(first occurrence wins)": keep the head and recursively de-duplicate
the tail with all copies of the head removed. -/
def dedupFirst : List String → List String
  | [] => []
  | x :: xs => x :: dedupFirst (xs.filter (fun y => y ≠ x))
termination_by l => l.length
decreasing_by
  simp only [List.length_cons]
  exact Nat.lt_succ_of_le (List.length_filter_le _ _)

theorem mem_dedupFirst {y : String} : ∀ {l : List String}, y ∈ dedupFirst l ↔ y ∈ l := by
  intro l
  induction l using dedupFirst.induct with
  | case1 => simp [dedupFirst]
  | case2 x xs ih =>
    simp only [dedupFirst, List.mem_cons, ih, List.mem_filter]
    constructor
    · rintro (rfl | ⟨hy, _⟩)
      · exact Or.inl rfl
      · exact Or.inr hy
    · rintro (rfl | hy)
      · exact Or.inl rfl
      · by_cases hx : y = x
        · exact Or.inl hx
        · exact Or.inr ⟨hy, by simpa using hx⟩

theorem dedupFirst_sublist : ∀ l : List String, List.Sublist (dedupFirst l) l := by
  intro l
  induction l using dedupFirst.induct with
  | case1 => simp [dedupFirst]
  | case2 x xs ih =>
    rw [dedupFirst]
    exact List.Sublist.cons₂ x (ih.trans (List.filter_sublist xs))

theorem nodup_dedupFirst : ∀ l : List String, (dedupFirst l).Nodup := by
  intro l
  induction l using dedupFirst.induct with
  | case1 => simp [dedupFirst]
  | case2 x xs ih =>
    rw [dedupFirst]
    refine List.Nodup.cons (fun hx => ?_) ih
    have := (List.mem_filter.mp (mem_dedupFirst.mp hx)).2
    simp at this

theorem foldl_uniquePreserve (l : List String) : ∀ acc : List String,
    l.foldl (fun acc x => if x ∈ acc then acc else acc ++ [x]) acc
      = acc ++ dedupFirst (l.filter (fun y => y ∉ acc)) := by
  induction l with
  | nil => intro acc; simp [dedupFirst]
  | cons x xs ih =>
    intro acc
    by_cases hx : x ∈ acc
    · have hfilter : (x :: xs).filter (fun y => y ∉ acc) = xs.filter (fun y => y ∉ acc) := by
        simp [List.filter_cons, hx]
      rw [hfilter, List.foldl_cons, if_pos hx, ih acc]
    · have hfilter : (x :: xs).filter (fun y => y ∉ acc)
          = x :: xs.filter (fun y => y ∉ acc) := by
        simp [List.filter_cons, hx]
      rw [hfilter, List.foldl_cons, if_neg hx, ih (acc ++ [x]), dedupFirst]
      have hff : xs.filter (fun y => y ∉ acc ++ [x])
          = (xs.filter (fun y => y ∉ acc)).filter (fun y => y ≠ x) := by
        rw [List.filter_filter]
        refine List.filter_congr (fun y _ => ?_)
        by_cases h1 : y = x <;> by_cases h2 : y ∈ acc <;> simp [h1, h2]
      rw [hff, List.append_assoc, List.singleton_append]

/-- `list(dict.fromkeys(l))` agrees with the declarative
first-occurrence-wins de-duplication. -/
theorem uniquePreserve_eq_dedupFirst (l : List String) :
    uniquePreserve l = dedupFirst l := by
  rw [uniquePreserve, foldl_uniquePreserve l [], List.nil_append]
  congr 1
  refine (List.filter_congr (fun y _ => by simp)).trans (List.filter_true l)

theorem nodup_extractTcins (html : String) : (extractTcins html).Nodup := by
  rw [extractTcins, uniquePreserve_eq_dedupFirst]
  exact nodup_dedupFirst _

theorem extractTcins_sublist (html : String) :
    List.Sublist (extractTcins html) (findAllTcins html.data) := by
  rw [extractTcins, uniquePreserve_eq_dedupFirst]
  exact dedupFirst_sublist _

example : findAllTcins "/p/x/-/A-123".data = ["123"] := by decide
example : findAllTcins "ab/p/x/-/A-12/p/y-z/-/A-34cd".data = ["12", "34"] := by decide
example : findAllTcins "/p//-/A-12".data = [] := by decide
example : findAllTcins "/p/x/-/A-".data = [] := by decide
example : extractTcins "/p/x/-/A-12/p/y/-/A-12/p/z/-/A-7" = ["12", "7"] := by decide

/-- One entry of `all_tcins`: the dict
`{'tcin': ..., 'position': ..., 'page': ...}`. -/
structure TcinRecord where
  tcin : String
  position : Nat
  page : Nat
deriving DecidableEq, Repr

/-- The `for idx, tcin in enumerate(unique_tcins)` loop of
`search_target_keyword`: record `idx`-th identifier with
`position = offset + idx + 1` where `offset = (page - 1) * 24`. -/
def pageRecordsAux (p : Nat) : Nat → List String → List TcinRecord
  | _, [] => []
  | i, t :: ts => ⟨t, (p - 1) * 24 + i + 1, p⟩ :: pageRecordsAux p (i + 1) ts

/-- All records contributed by one successfully fetched page. -/
def pageRecords (p : Nat) (html : String) : List TcinRecord :=
  pageRecordsAux p 0 (extractTcins html)

/-- The page loop of `search_target_keyword` over an explicit list of
page numbers.  Returns the accumulated records together with the trace
of fetch attempts actually performed, as (page, attempt) pairs.
A `none` from the fetcher models the `except` branch (any exception
while navigating, waiting or reading the page): warn and `break`.
A successful page with fewer than 24 extracted identifiers also ends
the loop (`if len(unique_tcins) < 24: break`). -/
def searchPages (fetch : Nat → Nat → Option String) :
    List Nat → List TcinRecord × List (Nat × Nat)
  | [] => ([], [])
  | p :: rest =>
    match fetch p 0 with
    | none => ([], [(p, 0)])
    | some html =>
      if (extractTcins html).length < 24 then (pageRecords p html, [(p, 0)])
      else
        let next := searchPages fetch rest
        (pageRecords p html ++ next.1, (p, 0) :: next.2)

/-- `search_target_keyword(driver, keyword, max_pages, ...)`:
`for page in range(1, max_pages + 1)` and return `all_tcins`. -/
def search_target_keyword (fetch : Nat → Nat → Option String)
    (max_pages : Nat) : List TcinRecord :=
  (searchPages fetch (List.range' 1 max_pages)).1

/-- The fetch attempts performed by one call of
`search_target_keyword`. -/
def searchTrace (fetch : Nat → Nat → Option String)
    (max_pages : Nat) : List (Nat × Nat) :=
  (searchPages fetch (List.range' 1 max_pages)).2

theorem searchPages_nil (fetch : Nat → Nat → Option String) :
    searchPages fetch [] = ([], []) := rfl

theorem searchPages_cons_none {fetch : Nat → Nat → Option String}
    {p : Nat} (rest : List Nat) (hf : fetch p 0 = none) :
    searchPages fetch (p :: rest) = ([], [(p, 0)]) := by
  simp [searchPages, hf]

theorem searchPages_cons_small {fetch : Nat → Nat → Option String}
    {p : Nat} {html : String} (rest : List Nat) (hf : fetch p 0 = some html)
    (hlen : (extractTcins html).length < 24) :
    searchPages fetch (p :: rest) = (pageRecords p html, [(p, 0)]) := by
  simp [searchPages, hf, hlen]

theorem searchPages_cons_big {fetch : Nat → Nat → Option String}
    {p : Nat} {html : String} (rest : List Nat) (hf : fetch p 0 = some html)
    (hlen : ¬ (extractTcins html).length < 24) :
    searchPages fetch (p :: rest)
      = (pageRecords p html ++ (searchPages fetch rest).1,
         (p, 0) :: (searchPages fetch rest).2) := by
  simp [searchPages, hf, hlen]

theorem pageRecordsAux_mem {p : Nat} {r : TcinRecord} :
    ∀ {i : Nat} {l : List String}, r ∈ pageRecordsAux p i l →
      r.page = p ∧ (p - 1) * 24 + i + 1 ≤ r.position
        ∧ r.position ≤ (p - 1) * 24 + i + l.length := by
  intro i l
  induction l generalizing i with
  | nil => intro h; exact absurd h (by simp [pageRecordsAux])
  | cons t ts ih =>
    intro h
    rw [pageRecordsAux, List.mem_cons] at h
    rcases h with rfl | h
    · refine ⟨rfl, le_refl _, ?_⟩
      simp only [List.length_cons]
      omega
    · obtain ⟨h1, h2, h3⟩ := ih h
      refine ⟨h1, by omega, ?_⟩
      simp only [List.length_cons]
      omega

theorem pageRecordsAux_index {p : Nat} {r : TcinRecord} :
    ∀ {i : Nat} {l : List String}, r ∈ pageRecordsAux p i l →
      ∃ j, l[j]? = some r.tcin ∧ r.position = (p - 1) * 24 + i + j + 1
        ∧ r.page = p := by
  intro i l
  induction l generalizing i with
  | nil => intro h; exact absurd h (by simp [pageRecordsAux])
  | cons t ts ih =>
    intro h
    rw [pageRecordsAux, List.mem_cons] at h
    rcases h with rfl | h
    · exact ⟨0, by simp⟩
    · obtain ⟨j, h1, h2, h3⟩ := ih h
      exact ⟨j + 1, by simpa using h1, by omega, h3⟩

theorem pageRecordsAux_of_mem {p : Nat} {t : String} :
    ∀ {i : Nat} {l : List String}, t ∈ l →
      ∃ r ∈ pageRecordsAux p i l, r.tcin = t ∧ r.page = p := by
  intro i l
  induction l generalizing i with
  | nil => intro h; exact absurd h (by simp)
  | cons u us ih =>
    intro h
    rw [List.mem_cons] at h
    rcases h with rfl | h
    · exact ⟨⟨t, (p - 1) * 24 + i + 1, p⟩, by simp [pageRecordsAux]⟩
    · obtain ⟨r, hr, h1, h2⟩ := ih (i := i + 1) h
      exact ⟨r, by simp [pageRecordsAux, hr], h1, h2⟩

theorem pageRecordsAux_pairwise (p : Nat) :
    ∀ (i : Nat) (l : List String),
      (pageRecordsAux p i l).Pairwise (fun r s => r.position < s.position) := by
  intro i l
  induction l generalizing i with
  | nil => simp [pageRecordsAux]
  | cons t ts ih =>
    rw [pageRecordsAux]
    refine List.Pairwise.cons (fun s hs => ?_) (ih (i + 1))
    have := (pageRecordsAux_mem hs).2.1
    simp only
    omega

theorem searchPages_trace_prefix (fetch : Nat → Nat → Option String) :
    ∀ l : List Nat, ∃ k,
      (searchPages fetch l).2 = (l.take k).map (fun p => (p, 0)) := by
  intro l
  induction l with
  | nil => exact ⟨0, by simp [searchPages_nil]⟩
  | cons p rest ih =>
    cases hf : fetch p 0 with
    | none => exact ⟨1, by simp [searchPages_cons_none rest hf]⟩
    | some html =>
      by_cases hlen : (extractTcins html).length < 24
      · exact ⟨1, by simp [searchPages_cons_small rest hf hlen]⟩
      · obtain ⟨k, hk⟩ := ih
        exact ⟨k + 1, by simp [searchPages_cons_big rest hf hlen, hk]⟩

theorem searchPages_trace_mem {fetch : Nat → Nat → Option String}
    {pa : Nat × Nat} :
    ∀ {l : List Nat}, pa ∈ (searchPages fetch l).2 → pa.1 ∈ l ∧ pa.2 = 0 := by
  intro l
  induction l with
  | nil => intro h; exact absurd h (by simp [searchPages_nil])
  | cons p rest ih =>
    intro h
    cases hf : fetch p 0 with
    | none =>
      rw [searchPages_cons_none rest hf] at h
      simp only [List.mem_singleton] at h
      subst h
      exact ⟨by simp, rfl⟩
    | some html =>
      by_cases hlen : (extractTcins html).length < 24
      · rw [searchPages_cons_small rest hf hlen] at h
        simp only [List.mem_singleton] at h
        subst h
        exact ⟨by simp, rfl⟩
      · rw [searchPages_cons_big rest hf hlen] at h
        simp only [List.mem_cons] at h
        rcases h with rfl | h
        · exact ⟨by simp, rfl⟩
        · obtain ⟨h1, h2⟩ := ih h
          exact ⟨by simp [h1], h2⟩

theorem searchPages_records_mem {fetch : Nat → Nat → Option String}
    {r : TcinRecord} :
    ∀ {l : List Nat}, r ∈ (searchPages fetch l).1 →
      ∃ p, p ∈ l ∧ ∃ h, fetch p 0 = some h ∧ r ∈ pageRecords p h := by
  intro l
  induction l with
  | nil => intro h; exact absurd h (by simp [searchPages_nil])
  | cons p rest ih =>
    intro h
    cases hf : fetch p 0 with
    | none =>
      rw [searchPages_cons_none rest hf] at h
      exact absurd h (by simp)
    | some html =>
      by_cases hlen : (extractTcins html).length < 24
      · rw [searchPages_cons_small rest hf hlen] at h
        exact ⟨p, by simp, html, hf, h⟩
      · rw [searchPages_cons_big rest hf hlen] at h
        simp only [List.mem_append] at h
        rcases h with h | h
        · exact ⟨p, by simp, html, hf, h⟩
        · obtain ⟨q, hq, hh⟩ := ih h
          exact ⟨q, by simp [hq], hh⟩

/-- The records contributed by one fetch attempt: those of the page
when the fetch succeeds, nothing when it fails. -/
def attemptRecords (fetch : Nat → Nat → Option String)
    (pa : Nat × Nat) : List TcinRecord :=
  match fetch pa.1 pa.2 with
  | some h => pageRecords pa.1 h
  | none => []

theorem attemptRecords_none {fetch : Nat → Nat → Option String}
    (pa : Nat × Nat) (hf : fetch pa.1 pa.2 = none) :
    attemptRecords fetch pa = [] := by
  simp [attemptRecords, hf]

theorem attemptRecords_some {fetch : Nat → Nat → Option String}
    (pa : Nat × Nat) {h : String} (hf : fetch pa.1 pa.2 = some h) :
    attemptRecords fetch pa = pageRecords pa.1 h := by
  simp [attemptRecords, hf]

/-- The records returned are exactly the concatenation, over the fetch
attempts actually made, of the records of the successfully fetched
pages (a failed attempt contributes nothing). -/
theorem searchPages_fst_eq (fetch : Nat → Nat → Option String) :
    ∀ l : List Nat, (searchPages fetch l).1
      = (searchPages fetch l).2.flatMap (attemptRecords fetch) := by
  intro l
  induction l with
  | nil => simp [searchPages_nil]
  | cons p rest ih =>
    cases hf : fetch p 0 with
    | none =>
      rw [searchPages_cons_none rest hf]
      simp [attemptRecords, hf]
    | some html =>
      by_cases hlen : (extractTcins html).length < 24
      · rw [searchPages_cons_small rest hf hlen]
        simp [attemptRecords, hf]
      · rw [searchPages_cons_big rest hf hlen]
        simp [attemptRecords, hf, ih]

/-- A fetch failure ends the keyword: the failed attempt is the last
entry of the trace, and every earlier page was fetched successfully
and yielded at least 24 identifiers. -/
theorem searchPages_failed_last {fetch : Nat → Nat → Option String} {p : Nat} :
    ∀ {n a : Nat}, (p, 0) ∈ (searchPages fetch (List.range' a n)).2 →
      fetch p 0 = none →
      (searchPages fetch (List.range' a n)).2
          = (List.range' a (p - a)).map (fun q => (q, 0)) ++ [(p, 0)]
        ∧ ∀ q ∈ List.range' a (p - a), ∃ h, fetch q 0 = some h
            ∧ 24 ≤ (extractTcins h).length := by
  intro n
  induction n with
  | zero => intro a hmem _; exact absurd hmem (by simp [searchPages_nil])
  | succ m ih =>
    intro a hmem hnone
    rw [List.range'_succ a m 1] at hmem ⊢
    cases hf : fetch a 0 with
    | none =>
      rw [searchPages_cons_none _ hf] at hmem ⊢
      simp only [List.mem_singleton, Prod.mk.injEq] at hmem
      obtain ⟨rfl, -⟩ := hmem
      simp
    | some html =>
      by_cases hlen : (extractTcins html).length < 24
      · rw [searchPages_cons_small _ hf hlen] at hmem
        simp only [List.mem_singleton, Prod.mk.injEq] at hmem
        obtain ⟨rfl, -⟩ := hmem
        rw [hf] at hnone
        exact absurd hnone (by simp)
      · rw [searchPages_cons_big _ hf hlen] at hmem ⊢
        simp only [List.mem_cons, Prod.mk.injEq] at hmem
        rcases hmem with ⟨rfl, -⟩ | hmem
        · rw [hf] at hnone
          exact absurd hnone (by simp)
        · obtain ⟨htr, hsucc⟩ := ih hmem hnone
          have hp : a + 1 ≤ p := by
            have hmem' := (searchPages_trace_mem hmem).1
            exact (List.mem_range'_1.mp hmem').1
          have hrange : List.range' a (p - a)
              = a :: List.range' (a + 1) (p - (a + 1)) := by
            have h1 : p - a = (p - (a + 1)) + 1 := by omega
            rw [h1, List.range'_succ a _ 1]
          constructor
          · rw [htr, hrange]
            simp
          · intro q hq
            rw [hrange, List.mem_cons] at hq
            rcases hq with rfl | hq
            · exact ⟨html, hf, by omega⟩
            · exact hsucc q hq

/-- A successful page with fewer than 24 identifiers ends the keyword:
no later page is ever attempted. -/
theorem searchPages_small_stop {fetch : Nat → Nat → Option String}
    {p : Nat} {html : String} :
    ∀ {n a : Nat}, (p, 0) ∈ (searchPages fetch (List.range' a n)).2 →
      fetch p 0 = some html → (extractTcins html).length < 24 →
      ∀ qa ∈ (searchPages fetch (List.range' a n)).2, qa.1 ≤ p := by
  intro n
  induction n with
  | zero => intro a hmem; exact absurd hmem (by simp [searchPages_nil])
  | succ m ih =>
    intro a hmem hf hlen qa hqa
    rw [List.range'_succ a m 1] at hmem hqa
    cases hfa : fetch a 0 with
    | none =>
      rw [searchPages_cons_none _ hfa] at hmem hqa
      simp only [List.mem_singleton, Prod.mk.injEq] at hmem
      obtain ⟨rfl, -⟩ := hmem
      rw [hfa] at hf
      exact absurd hf (by simp)
    | some h1 =>
      by_cases hlen1 : (extractTcins h1).length < 24
      · rw [searchPages_cons_small _ hfa hlen1] at hmem hqa
        simp only [List.mem_singleton, Prod.mk.injEq] at hmem hqa
        obtain ⟨rfl, -⟩ := hmem
        rw [hqa]
      · rw [searchPages_cons_big _ hfa hlen1] at hmem hqa
        simp only [List.mem_cons, Prod.mk.injEq] at hmem
        rcases hmem with ⟨rfl, -⟩ | hmem
        · rw [hfa] at hf
          rw [Option.some.injEq] at hf
          rw [← hf] at hlen
          exact absurd hlen hlen1
        · have hp : a + 1 ≤ p := by
            have hmem' := (searchPages_trace_mem hmem).1
            exact (List.mem_range'_1.mp hmem').1
          rw [List.mem_cons] at hqa
          rcases hqa with rfl | hqa
          · simp only
            omega
          · exact ih hmem hf hlen qa hqa

/-- Lower bounds on position and page of any returned record, in terms
of the first page number of the range searched. -/
theorem searchPages_pos_lower {fetch : Nat → Nat → Option String}
    {r : TcinRecord} {n a : Nat}
    (hr : r ∈ (searchPages fetch (List.range' a n)).1) :
    (a - 1) * 24 + 1 ≤ r.position ∧ a ≤ r.page := by
  obtain ⟨p, hp, h, _, hmem⟩ := searchPages_records_mem hr
  have hpa : a ≤ p := (List.mem_range'_1.mp hp).1
  rw [pageRecords] at hmem
  obtain ⟨hpage, hlow, -⟩ := pageRecordsAux_mem hmem
  have hmul : (a - 1) * 24 ≤ (p - 1) * 24 :=
    Nat.mul_le_mul_right 24 (by omega)
  exact ⟨by omega, by omega⟩

/-- Positions are strictly increasing in extraction order, provided no
page ever yields more than 24 identifiers. -/
theorem searchPages_pairwise {fetch : Nat → Nat → Option String}
    (hcap : ∀ p h, fetch p 0 = some h → (extractTcins h).length ≤ 24) :
    ∀ (n a : Nat), 1 ≤ a →
      ((searchPages fetch (List.range' a n)).1).Pairwise
        (fun r s => r.position < s.position) := by
  intro n
  induction n with
  | zero => intro a _; simp [searchPages_nil]
  | succ m ih =>
    intro a ha
    rw [List.range'_succ a m 1]
    cases hf : fetch a 0 with
    | none => rw [searchPages_cons_none _ hf]; simp
    | some html =>
      by_cases hlen : (extractTcins html).length < 24
      · rw [searchPages_cons_small _ hf hlen]
        exact pageRecordsAux_pairwise a 0 _
      · rw [searchPages_cons_big _ hf hlen, List.pairwise_append]
        refine ⟨pageRecordsAux_pairwise a 0 _, ih (a + 1) (by omega), ?_⟩
        intro r hr s hs
        rw [pageRecords] at hr
        obtain ⟨-, -, hup⟩ := pageRecordsAux_mem hr
        have hlow := (searchPages_pos_lower hs).1
        have hc := hcap a html hf
        omega

/-! ### The `main` run: driver lifecycle, keyword loop, matrix build -/

/-- Events of one run of `main`, as far as the fetch capability is
concerned.  `recreate` (discarding and re-initialising the driver
mid-run) never occurs in the code; the constructor is included so that
the session-recovery behaviour described by the spec is expressible
and refutable.  `searchKw k p` is a call of `search_target_keyword`
for keyword `k` starting at page `p`. -/
inductive MainEv where
  | acquire : MainEv
  | searchKw : String → Nat → MainEv
  | recreate : MainEv
  | quit : MainEv
deriving DecidableEq, Repr

/-- The keywords whose search completes before the run ends: all of
them normally; a prefix when an unexpected exception escapes to the
outer handler after `n` keywords (`interrupt = some n`); none when the
driver could not be initialised. -/
def processedKeywords (initOk : Bool) (interrupt : Option Nat)
    (keywords : List String) : List String :=
  if initOk then
    match interrupt with
    | none => keywords
    | some n => keywords.take n
  else []

/-- The run structure of `main`: `driver = init_driver()` (a `None`
driver aborts the run and the `finally` block quits nothing), then the
sequential keyword loop calling `search_target_keyword` once per
keyword, always from page 1, building `results_data`; any exception
escaping the loop (modelled by `interrupt`) falls to the generic
`except`, and `finally: if driver: driver.quit()` runs last.  Returns
the event trace and `results_data` in insertion order. -/
def runMain (initOk : Bool) (interrupt : Option Nat)
    (fetchFor : String → Nat → Nat → Option String) (max_pages : Nat)
    (keywords : List String) :
    List MainEv × List (String × List TcinRecord) :=
  if initOk then
    (MainEv.acquire ::
      ((processedKeywords initOk interrupt keywords).map
          (fun k => MainEv.searchKw k 1) ++ [MainEv.quit]),
     (processedKeywords initOk interrupt keywords).map
        (fun k => (k, search_target_keyword (fetchFor k) max_pages)))
  else ([], [])

/-- One cell of the results matrix: the linear scan
`for result in results_data.get(keyword, []): if result['tcin'] == tcin:
... break`, with the "absent" sentinel as `none`. -/
def cellFor : List TcinRecord → String → Option (Nat × Nat)
  | [], _ => none
  | r :: rest, t =>
    if r.tcin = t then some (r.position, r.page) else cellFor rest t

/-- `results_data.get(keyword, [])` over the association list. -/
def lookupResults (rd : List (String × List TcinRecord))
    (k : String) : List TcinRecord :=
  match rd.find? (fun e => e.1 = k) with
  | some e => e.2
  | none => []

/-- The `results_matrix` built by `main`: one row per TCIN, one cell
per keyword. -/
def results_matrix (tcins keywords : List String)
    (rd : List (String × List TcinRecord)) :
    List (String × List (String × Option (Nat × Nat))) :=
  tcins.map (fun t =>
    (t, keywords.map (fun k => (k, cellFor (lookupResults rd k) t))))

/-- `total_checks = len(tcin_list) * len(keyword_list)`. -/
def total_checks (tcins keywords : List String) : Nat :=
  tcins.length * keywords.length

/-- `found_count`: the number of non-absent cells, summed row by row as
in `sum(1 for row in results_matrix for k in keyword_list if row[k] != '—')`. -/
def found_count
    (matrix : List (String × List (String × Option (Nat × Nat)))) : Nat :=
  (matrix.map (fun row => (row.2.filter (fun c => c.2.isSome)).length)).sum

/-- The total number of cells of a matrix. -/
def cellCount
    (matrix : List (String × List (String × Option (Nat × Nat)))) : Nat :=
  (matrix.map (fun row => row.2.length)).sum

/-- The success-rate computation with the `total = 0` guard the spec
describes (`0 when total = 0`); the code divides unguarded, so the
guard branch must be unreachable. -/
def specSuccessRatio (found total : Nat) : ℚ :=
  if total = 0 then 0 else (found : ℚ) / (total : ℚ)

/-- Does the marker occur at the head of the text? -/
def startsWithSeq : List Char → List Char → Bool
  | [], _ => true
  | _ :: _, [] => false
  | m :: ms, c :: cs => m = c && startsWithSeq ms cs

/-- The text up to (excluding) the first occurrence of the marker. -/
def truncateBefore (marker : List Char) : List Char → List Char
  | [] => []
  | c :: cs =>
    if startsWithSeq marker (c :: cs) then []
    else c :: truncateBefore marker cs

/-- Modelled from the spec: the "primary results region" truncation
("truncate the HTML at the first occurrence of known secondary-section
markers") that the spec attributes to extraction but `src/app.py` does
not implement. -/
def specPrimaryRegion (html : String) : String :=
  String.mk (truncateBefore "Sponsored".data
    (truncateBefore "Recommended for you".data html.data))

/-! ### Concrete inputs for counterexamples and witnesses -/

/-- A page whose HTML starts with a secondary-section marker and whose
full text contains 25 distinct product URLs. -/
def pageBig : String := "Sponsored/p/x/-/A-201/p/x/-/A-202/p/x/-/A-203/p/x/-/A-204/p/x/-/A-205/p/x/-/A-206/p/x/-/A-207/p/x/-/A-208/p/x/-/A-209/p/x/-/A-210/p/x/-/A-211/p/x/-/A-212/p/x/-/A-213/p/x/-/A-214/p/x/-/A-215/p/x/-/A-216/p/x/-/A-217/p/x/-/A-218/p/x/-/A-219/p/x/-/A-220/p/x/-/A-221/p/x/-/A-222/p/x/-/A-223/p/x/-/A-224/p/x/-/A-225"

/-- A page with exactly 24 distinct identifiers, "7" among them. -/
def page24 : String := "/p/x/-/A-101/p/x/-/A-102/p/x/-/A-103/p/x/-/A-104/p/x/-/A-105/p/x/-/A-106/p/x/-/A-107/p/x/-/A-108/p/x/-/A-109/p/x/-/A-110/p/x/-/A-111/p/x/-/A-112/p/x/-/A-113/p/x/-/A-114/p/x/-/A-115/p/x/-/A-116/p/x/-/A-117/p/x/-/A-118/p/x/-/A-119/p/x/-/A-120/p/x/-/A-121/p/x/-/A-122/p/x/-/A-123/p/x/-/A-7"

/-- A page with a single identifier. -/
def pageOne : String := "/p/x/-/A-999"

/-- A page with the single identifier "7". -/
def pageSeven : String := "/p/q/-/A-7"

/-- Page 1's first attempt fails; any further attempt on it would
succeed. -/
def fetchC1 : Nat → Nat → Option String := fun p a =>
  if p = 1 ∧ 1 ≤ a then some pageOne else none

/-- Page 1 yields 25 identifiers, page 2 yields one. -/
def fetchC2 : Nat → Nat → Option String
  | 1, _ => some pageBig
  | 2, _ => some pageOne
  | _, _ => none

/-- Every page succeeds with a single identifier. -/
def fetchAlwaysOne : Nat → Nat → Option String := fun _ _ => some pageOne

/-- Page 1 yields 24 identifiers ("7" among them), page 2 yields the
single identifier "7". -/
def fetchC5 : Nat → Nat → Option String
  | 1, _ => some page24
  | 2, _ => some pageSeven
  | _, _ => none

/-- The session is dead: every fetch fails. -/
def fetchDead : Nat → Nat → Option String := fun _ _ => none

/-- Page 1 succeeds with a full page; every later fetch fails. -/
def fetchC10 : Nat → Nat → Option String
  | 1, _ => some page24
  | _, _ => none

/-! ### Derived facts about one keyword's crawl -/

/-- Pages are never attempted twice within one keyword. -/
theorem trace_pages_nodup (fetch : Nat → Nat → Option String)
    (max_pages : Nat) :
    ((searchTrace fetch max_pages).map Prod.fst).Nodup := by
  obtain ⟨k, hk⟩ := searchPages_trace_prefix fetch (List.range' 1 max_pages)
  rw [searchTrace, hk, List.map_map]
  have hcomp : (Prod.fst ∘ fun p => ((p, 0) : Nat × Nat)) = id := rfl
  rw [hcomp, List.map_id]
  exact List.Nodup.sublist (List.take_sublist _ _) (List.nodup_range' _ _)

/-- After a failed fetch of page `p`, the returned records are exactly
those contributed by pages 1 through p-1. -/
theorem records_of_failed {fetch : Nat → Nat → Option String}
    {max_pages p : Nat} (hmem : (p, 0) ∈ searchTrace fetch max_pages)
    (hnone : fetch p 0 = none) :
    search_target_keyword fetch max_pages
      = (List.range' 1 (p - 1)).flatMap
          (fun q => attemptRecords fetch (q, 0)) := by
  obtain ⟨htr, -⟩ := searchPages_failed_last (a := 1) hmem hnone
  unfold search_target_keyword
  rw [searchPages_fst_eq fetch (List.range' 1 max_pages)]
  rw [htr, List.flatMap_append, List.flatMap_map]
  have hlast : [((p : Nat), (0 : Nat))].flatMap (attemptRecords fetch) = [] := by
    simp [attemptRecords_none ((p : Nat), (0 : Nat)) hnone]
  rw [hlast, List.append_nil]

/-- After a failed fetch of page `p`, every returned record comes from
an earlier page. -/
theorem records_of_failed_pages {fetch : Nat → Nat → Option String}
    {max_pages p : Nat} (hmem : (p, 0) ∈ searchTrace fetch max_pages)
    (hnone : fetch p 0 = none) :
    ∀ r ∈ search_target_keyword fetch max_pages, r.page < p := by
  intro r hr
  rw [records_of_failed hmem hnone, List.mem_flatMap] at hr
  obtain ⟨q, hq, hrq⟩ := hr
  obtain ⟨hq1, hq2⟩ := List.mem_range'_1.mp hq
  cases hfq : fetch q 0 with
  | none => rw [attemptRecords_none (q, 0) hfq] at hrq; exact absurd hrq (by simp)
  | some h =>
    rw [attemptRecords_some (q, 0) hfq, pageRecords] at hrq
    have hpage := (pageRecordsAux_mem hrq).1
    omega

end TargetTcin

namespace TargetTcin
example : (extractTcins pageBig).length = 25 := by decide
example : (extractTcins page24).length = 24 := by decide
example : extractTcins pageOne = ["999"] := by decide
example : extractTcins pageSeven = ["7"] := by decide
example : searchTrace fetchC2 2 = [(1, 0), (2, 0)] := by decide
example : searchTrace fetchC5 2 = [(1, 0), (2, 0)] := by decide
example : searchTrace fetchC10 3 = [(1, 0), (2, 0)] := by decide
example : search_target_keyword fetchC1 3 = [] := by decide
example : searchTrace fetchAlwaysOne 5 = [(1, 0)] := by decide
example : ((search_target_keyword fetchC2 2).map TcinRecord.position).getLast? = some 25 := by decide
example : findAllTcins (specPrimaryRegion pageBig).data = [] := by decide
example : "7" ∈ extractTcins page24 := by decide
end TargetTcin

namespace TargetTcin

/-! ### Claims -/

/-- C1 counterexample: the claim asserts that on a fetch failure the
searcher waits and retries the same page while the attempt count is at
most `max_retries` (so up to `max_retries + 1` attempts per page).  The
code has no retry: with a fetcher whose page-1 attempt 0 fails but
whose attempt 1 would succeed, the trace shows a single attempt
`(1, 0)` and the keyword is abandoned at once with no records, even
though for any `max_retries ≥ 1` the claimed policy would have retried
and collected the page. -/
theorem C1_counterexample :
    fetchC1 1 0 = none ∧ fetchC1 1 1 = some pageOne
      ∧ extractTcins pageOne = ["999"]
      ∧ searchTrace fetchC1 3 = [(1, 0)]
      ∧ search_target_keyword fetchC1 3 = [] :=
  ⟨by decide, by decide, by decide, by decide, by decide⟩

/-- C1 (amended): there is no retry and no backoff: every fetch attempt
is attempt 0, no page is ever attempted twice (at most one fetch
attempt per page), and on the first fetch/timeout failure the searcher
abandons the keyword's remaining pages, returning the records already
collected from earlier pages rather than failing hard. -/
theorem C1_no_retry (fetch : Nat → Nat → Option String) (max_pages : Nat) :
    (∀ pa ∈ searchTrace fetch max_pages, pa.2 = 0)
    ∧ ((searchTrace fetch max_pages).map Prod.fst).Nodup
    ∧ (∀ p, (p, 0) ∈ searchTrace fetch max_pages → fetch p 0 = none →
        ∀ r ∈ search_target_keyword fetch max_pages, r.page < p) :=
  ⟨fun _ hpa => (searchPages_trace_mem hpa).2,
    trace_pages_nodup fetch max_pages,
    fun _ hp hnone => records_of_failed_pages hp hnone⟩

/-- Witness for `C1_no_retry` at a concrete fetcher: the abandoned
page 1 contributes no record. -/
theorem C1_no_retry_witness :
    ¬ ((⟨"999", 1, 1⟩ : TcinRecord) ∈ search_target_keyword fetchC1 3) :=
  fun hmem => absurd ((C1_no_retry fetchC1 3).2.2 1 (by decide) (by decide)
    ⟨"999", 1, 1⟩ hmem) (by decide)

/-- C3: once a successfully processed page yields strictly fewer than
24 identifiers, no later page is fetched for that keyword: every
attempt in the keyword's trace concerns a page at most `p`. -/
theorem C3_early_stop (fetch : Nat → Nat → Option String)
    (max_pages p : Nat) (html : String)
    (hp : (p, 0) ∈ searchTrace fetch max_pages)
    (hf : fetch p 0 = some html)
    (hlen : (extractTcins html).length < 24) :
    ∀ qa ∈ searchTrace fetch max_pages, qa.1 ≤ p :=
  searchPages_small_stop hp hf hlen

/-- Witness for `C3_early_stop`: page 1 of this fetcher yields a single
identifier, so page 2 is never attempted although the page budget is 5
and the fetcher would have succeeded there. -/
theorem C3_early_stop_witness : ¬ ((2, 0) ∈ searchTrace fetchAlwaysOne 5) :=
  fun hmem => absurd (C3_early_stop fetchAlwaysOne 5 1 pageOne (by decide)
    (by decide) (by decide) (2, 0) hmem) (by decide)

/-- C10: when fetching page `p` fails (exception before extraction),
the keyword's returned records are exactly those accumulated from
pages 1 through p-1 — every record's page is strictly below `p`, the
record list equals the concatenation of the earlier pages'
contributions, and each of those earlier pages was in fact fetched
successfully (with a full page, which is why the crawl had continued). -/
theorem C10_failed_page (fetch : Nat → Nat → Option String)
    (max_pages p : Nat)
    (hmem : (p, 0) ∈ searchTrace fetch max_pages)
    (hnone : fetch p 0 = none) :
    (∀ r ∈ search_target_keyword fetch max_pages, r.page < p)
    ∧ search_target_keyword fetch max_pages
        = (List.range' 1 (p - 1)).flatMap
            (fun q => attemptRecords fetch (q, 0))
    ∧ (∀ q, 1 ≤ q → q < p → ∃ h, fetch q 0 = some h
        ∧ 24 ≤ (extractTcins h).length) := by
  refine ⟨records_of_failed_pages hmem hnone, records_of_failed hmem hnone, ?_⟩
  intro q h1 h2
  obtain ⟨-, hsucc⟩ := searchPages_failed_last (a := 1) hmem hnone
  exact hsucc q (List.mem_range'_1.mpr ⟨h1, by omega⟩)

/-- Witness for `C10_failed_page`: page 1 succeeds with a full page,
page 2 fails, and the returned records are exactly page 1's. -/
theorem C10_failed_page_witness :
    search_target_keyword fetchC10 3
      = (List.range' 1 1).flatMap (fun q => attemptRecords fetchC10 (q, 0)) :=
  (C10_failed_page fetchC10 3 2 (by decide) (by decide)).2.1

end TargetTcin

namespace TargetTcin

/-- C2 counterexample: the position formula always holds, but positions
are not strictly increasing in extraction order: page 1 of this fetcher
yields 25 identifiers (positions 1..25, nothing caps the extraction at
24), the crawl continues, and page 2's first record reuses position
(2-1)*24 + 0 + 1 = 25. -/
theorem C2_counterexample :
    ¬ (search_target_keyword fetchC2 2).Pairwise
      (fun r s => r.position < s.position) := by decide

/-- C2 (amended): every returned record's position is
`(page - 1) * 24 + local_index + 1` for its 0-based index in its page's
extracted sequence; and the positions are strictly increasing in
extraction order provided no page's extraction exceeds 24 identifiers
(which the code does not enforce). -/
theorem C2_positions (fetch : Nat → Nat → Option String) (max_pages : Nat) :
    (∀ r ∈ search_target_keyword fetch max_pages,
      ∃ html i, fetch r.page 0 = some html
        ∧ (extractTcins html)[i]? = some r.tcin
        ∧ r.position = (r.page - 1) * 24 + i + 1)
    ∧ ((∀ p h, fetch p 0 = some h → (extractTcins h).length ≤ 24) →
        (search_target_keyword fetch max_pages).Pairwise
          (fun r s => r.position < s.position)) := by
  constructor
  · intro r hr
    obtain ⟨p, _, html, hf, hmem⟩ := searchPages_records_mem hr
    rw [pageRecords] at hmem
    obtain ⟨j, hget, hpos, hpage⟩ := pageRecordsAux_index hmem
    exact ⟨html, j, by rw [hpage]; exact hf, hget, by rw [hpage]; omega⟩
  · intro hcap
    exact searchPages_pairwise hcap max_pages 1 (le_refl 1)

/-- Witness for `C2_positions`: with a fetcher serving a 24-identifier
page then a 1-identifier page, positions are strictly increasing. -/
theorem C2_positions_witness :
    (search_target_keyword fetchC5 2).Pairwise
      (fun r s => r.position < s.position) :=
  (C2_positions fetchC5 2).2 (by
    intro p h hf
    rcases p with _ | (_ | (_ | n))
    · rw [show fetchC5 0 0 = none from rfl] at hf
      exact Option.noConfusion hf
    · rw [show fetchC5 1 0 = some page24 from rfl,
        Option.some.injEq] at hf
      rw [← hf]; decide
    · rw [show fetchC5 2 0 = some pageSeven from rfl,
        Option.some.injEq] at hf
      rw [← hf]; decide
    · rw [show fetchC5 (n + 3) 0 = none from rfl] at hf
      exact Option.noConfusion hf)

/-- C4 counterexample: extraction neither stays within the primary
results region nor is capped at 24: on a page whose HTML begins with a
"Sponsored" marker, the code still extracts all 25 identifiers — the
spec-side primary region (truncated at the marker) contains none of
them. -/
theorem C4_counterexample :
    24 < (extractTcins pageBig).length
    ∧ "201" ∈ extractTcins pageBig
    ∧ findAllTcins (specPrimaryRegion pageBig).data = [] :=
  ⟨by decide, by decide, by decide⟩

/-- C4 (amended): the extracted sequence is confined to (is a sublist
of) the pattern matches of the full page HTML, and its length is
bounded only by the number of those matches — no secondary-section
exclusion and no cap at 24 is applied. -/
theorem C4_full_html (html : String) :
    List.Sublist (extractTcins html) (findAllTcins html.data)
    ∧ (extractTcins html).length ≤ (findAllTcins html.data).length :=
  ⟨extractTcins_sublist html, (extractTcins_sublist html).length_le⟩

/-- C5: within one page the extracted sequence has no duplicates and
equals the first-occurrence-wins de-duplication of the raw match
sequence; and de-duplication is not applied across pages: an
identifier extracted on two different (successfully fetched) pages of
one keyword yields two distinct records. -/
theorem C5_dedup :
    (∀ html, (extractTcins html).Nodup)
    ∧ (∀ html, extractTcins html = dedupFirst (findAllTcins html.data))
    ∧ (∀ (fetch : Nat → Nat → Option String) (max_pages p q : Nat)
        (hA hB : String) (t : String),
        (p, 0) ∈ searchTrace fetch max_pages →
        (q, 0) ∈ searchTrace fetch max_pages → p ≠ q →
        fetch p 0 = some hA → fetch q 0 = some hB →
        t ∈ extractTcins hA → t ∈ extractTcins hB →
        ∃ r1 r2, r1 ∈ search_target_keyword fetch max_pages
          ∧ r2 ∈ search_target_keyword fetch max_pages ∧ r1 ≠ r2
          ∧ r1.tcin = t ∧ r2.tcin = t ∧ r1.page = p ∧ r2.page = q) := by
  refine ⟨nodup_extractTcins,
    fun html => by rw [extractTcins, uniquePreserve_eq_dedupFirst], ?_⟩
  intro fetch max_pages p q hA hB t hptr hqtr hpq hfp hfq htp htq
  obtain ⟨r1, hr1mem, hr1t, hr1pg⟩ := pageRecordsAux_of_mem (p := p) (i := 0) htp
  obtain ⟨r2, hr2mem, hr2t, hr2pg⟩ := pageRecordsAux_of_mem (p := q) (i := 0) htq
  have h1 : r1 ∈ search_target_keyword fetch max_pages := by
    unfold search_target_keyword
    rw [searchPages_fst_eq, List.mem_flatMap]
    refine ⟨(p, 0), hptr, ?_⟩
    rw [attemptRecords_some (p, 0) hfp, pageRecords]
    exact hr1mem
  have h2 : r2 ∈ search_target_keyword fetch max_pages := by
    unfold search_target_keyword
    rw [searchPages_fst_eq, List.mem_flatMap]
    refine ⟨(q, 0), hqtr, ?_⟩
    rw [attemptRecords_some (q, 0) hfq, pageRecords]
    exact hr2mem
  refine ⟨r1, r2, h1, h2, fun he => hpq ?_, hr1t, hr2t, hr1pg, hr2pg⟩
  rw [← hr1pg, ← hr2pg, he]

/-- Witness for `C5_dedup`: identifier "7" appears on both page 1 and
page 2, and the keyword's records contain two distinct records for
it. -/
theorem C5_dedup_witness :
    ∃ r1 r2, r1 ∈ search_target_keyword fetchC5 2
      ∧ r2 ∈ search_target_keyword fetchC5 2 ∧ r1 ≠ r2
      ∧ r1.tcin = "7" ∧ r2.tcin = "7" ∧ r1.page = 1 ∧ r2.page = 2 :=
  C5_dedup.2.2 fetchC5 2 1 2 page24 pageSeven "7" (by decide) (by decide)
    (by decide) (by decide) (by decide) (by decide) (by decide)

end TargetTcin

namespace TargetTcin

/-! ### Matrix lemmas -/

theorem cellFor_eq_none {res : List TcinRecord} {t : String} :
    cellFor res t = none ↔ ∀ r ∈ res, r.tcin ≠ t := by
  induction res with
  | nil => simp [cellFor]
  | cons r rest ih =>
    simp only [cellFor]
    by_cases h : r.tcin = t
    · simp [h]
    · simp [h, ih]

theorem cellFor_eq_some {res : List TcinRecord} {t : String} {c : Nat × Nat} :
    cellFor res t = some c →
      ∃ pre r post, res = pre ++ r :: post ∧ r.tcin = t
        ∧ c = (r.position, r.page) ∧ ∀ rr ∈ pre, rr.tcin ≠ t := by
  induction res with
  | nil => intro h; exact absurd h (by simp [cellFor])
  | cons r rest ih =>
    intro h
    simp only [cellFor] at h
    by_cases ht : r.tcin = t
    · rw [if_pos ht, Option.some.injEq] at h
      exact ⟨[], r, rest, by simp, ht, h.symm, by simp⟩
    · rw [if_neg ht] at h
      obtain ⟨pre, rr, post, heq, hh1, hh2, hh3⟩ := ih h
      refine ⟨r :: pre, rr, post, by rw [heq]; rfl, hh1, hh2, ?_⟩
      intro x hx
      rcases List.mem_cons.mp hx with rfl | hx
      · exact ht
      · exact hh3 x hx

theorem cellCount_results_matrix (tcins keywords : List String)
    (rd : List (String × List TcinRecord)) :
    cellCount (results_matrix tcins keywords rd)
      = tcins.length * keywords.length := by
  rw [cellCount, results_matrix, List.map_map]
  have hcomp : ((fun row : String × List (String × Option (Nat × Nat)) =>
        row.2.length) ∘ (fun t =>
        (t, keywords.map (fun k => (k, cellFor (lookupResults rd k) t)))))
      = fun _ => keywords.length := by
    funext t
    simp
  rw [hcomp]
  simp [List.map_const']

theorem found_le_cellCount
    (matrix : List (String × List (String × Option (Nat × Nat)))) :
    found_count matrix ≤ cellCount matrix := by
  rw [found_count, cellCount]
  exact List.sum_le_sum (fun row _ => List.length_filter_le _ _)

/-- C6: the matrix has one row per TCIN and one cell per keyword in
each row (|matrix| = |tcins| × |keywords| cells, with absence as an
explicit `none`, never a missing entry — including for keywords whose
crawl returned nothing), and each cell holds position and page of the
first record of that keyword's list whose identifier matches, or
`none` when no record matches. -/
theorem C6_matrix (tcins keywords : List String)
    (rd : List (String × List TcinRecord)) :
    (results_matrix tcins keywords rd).length = tcins.length
    ∧ (∀ row ∈ results_matrix tcins keywords rd,
        row.2.length = keywords.length)
    ∧ cellCount (results_matrix tcins keywords rd)
        = tcins.length * keywords.length
    ∧ (∀ t ∈ tcins, ∀ k ∈ keywords,
        ∃ row ∈ results_matrix tcins keywords rd,
          row.1 = t ∧ (k, cellFor (lookupResults rd k) t) ∈ row.2)
    ∧ (∀ res t, cellFor res t = none ↔ ∀ r ∈ res, r.tcin ≠ t)
    ∧ (∀ res t c, cellFor res t = some c →
        ∃ pre r post, res = pre ++ r :: post ∧ r.tcin = t
          ∧ c = (r.position, r.page) ∧ ∀ rr ∈ pre, rr.tcin ≠ t) := by
  refine ⟨by simp [results_matrix], ?_,
    cellCount_results_matrix tcins keywords rd, ?_,
    fun res t => cellFor_eq_none, fun res t c => cellFor_eq_some⟩
  · intro row hrow
    rw [results_matrix] at hrow
    obtain ⟨t, -, rfl⟩ := List.mem_map.mp hrow
    simp
  · intro t ht k hk
    refine ⟨(t, keywords.map (fun k => (k, cellFor (lookupResults rd k) t))),
      List.mem_map_of_mem _ ht, rfl, List.mem_map_of_mem _ hk⟩

/-- Witness for `C6_matrix`: the first matching record (not the later
duplicate) provides the cell. -/
theorem C6_matrix_witness :
    ∃ pre r post,
      ([⟨"333", 1, 1⟩, ⟨"222", 2, 1⟩, ⟨"222", 30, 2⟩] : List TcinRecord)
          = pre ++ r :: post
        ∧ r.tcin = "222" ∧ ((2, 1) : Nat × Nat) = (r.position, r.page)
        ∧ ∀ rr ∈ pre, rr.tcin ≠ "222" :=
  (C6_matrix ["222"] ["x"]
      [("x", [⟨"333", 1, 1⟩, ⟨"222", 2, 1⟩, ⟨"222", 30, 2⟩])]).2.2.2.2.2
    [⟨"333", 1, 1⟩, ⟨"222", 2, 1⟩, ⟨"222", 30, 2⟩] "222" (2, 1) (by decide)

end TargetTcin

namespace TargetTcin

/-! ### Driver lifecycle claims -/

/-- C7 counterexample: the claim asserts a session-level fetch failure
triggers exactly one discard-and-recreate of the driver followed by a
retry of the same keyword from page 1.  With a dead session (every
fetch fails — keyword "a" fails already on page 1), the run's event
trace contains no `recreate` and keyword "a" is searched exactly once;
its results stay empty, yet the run continues to keyword "b". -/
theorem C7_counterexample :
    ((runMain true none (fun _ => fetchDead) 3 ["a", "b"]).1.count
        MainEv.recreate = 0)
    ∧ ((runMain true none (fun _ => fetchDead) 3 ["a", "b"]).1.count
        (MainEv.searchKw "a" 1) = 1)
    ∧ (runMain true none (fun _ => fetchDead) 3 ["a", "b"]).2
        = [("a", []), ("b", [])]
    ∧ fetchDead 1 0 = none :=
  ⟨by decide, by decide, by decide, by decide⟩

/-- C7 (amended): the fetch capability is never recreated: the run
emits no `recreate` event, each processed keyword is searched exactly
once (always from page 1), and every processed keyword — session
failure or not — receives a result entry, the run continuing with the
next keyword. -/
theorem C7_no_recreate (initOk : Bool) (interrupt : Option Nat)
    (fetchFor : String → Nat → Nat → Option String) (max_pages : Nat)
    (keywords : List String) :
    ((runMain initOk interrupt fetchFor max_pages keywords).1.count
        MainEv.recreate = 0)
    ∧ (∀ k, (runMain initOk interrupt fetchFor max_pages keywords).1.count
          (MainEv.searchKw k 1)
        = (processedKeywords initOk interrupt keywords).count k)
    ∧ (runMain initOk interrupt fetchFor max_pages keywords).2
        = (processedKeywords initOk interrupt keywords).map
            (fun k => (k, search_target_keyword (fetchFor k) max_pages)) := by
  cases initOk with
  | false => simp [runMain, processedKeywords]
  | true =>
    have hev : (runMain true interrupt fetchFor max_pages keywords).1
        = [MainEv.acquire]
            ++ (processedKeywords true interrupt keywords).map
                (fun k => MainEv.searchKw k 1)
            ++ [MainEv.quit] := by
      simp [runMain]
    refine ⟨?_, fun k => ?_, by simp [runMain]⟩
    · rw [hev, List.count_append, List.count_append]
      have hmap : ((processedKeywords true interrupt keywords).map
          (fun k => MainEv.searchKw k 1)).count MainEv.recreate = 0 := by
        rw [List.count_eq_zero]
        intro hmem
        obtain ⟨x, -, hx⟩ := List.mem_map.mp hmem
        exact MainEv.noConfusion hx
      rw [hmap]
      decide
    · rw [hev, List.count_append, List.count_append]
      have hA : ([MainEv.acquire].count (MainEv.searchKw k 1)) = 0 := by
        rw [List.count_eq_zero]
        intro hmem
        rw [List.mem_singleton] at hmem
        exact MainEv.noConfusion hmem
      have hQ : ([MainEv.quit].count (MainEv.searchKw k 1)) = 0 := by
        rw [List.count_eq_zero]
        intro hmem
        rw [List.mem_singleton] at hmem
        exact MainEv.noConfusion hmem
      have hinj : Function.Injective (fun k => MainEv.searchKw k 1) := by
        intro a b hab
        simpa using hab
      rw [hA, hQ, List.count_map_of_injective _ _ hinj]
      omega

/-- C8: on every run in which the driver was successfully acquired it
is quit exactly once, as the final action, on the success path and on
every failure path (`interrupt` covers exceptions escaping mid-run);
when acquisition failed nothing is quit. -/
theorem C8_release (initOk : Bool) (interrupt : Option Nat)
    (fetchFor : String → Nat → Nat → Option String) (max_pages : Nat)
    (keywords : List String) :
    ((runMain initOk interrupt fetchFor max_pages keywords).1.count
        MainEv.quit = if initOk then 1 else 0)
    ∧ ((runMain initOk interrupt fetchFor max_pages keywords).1.count
        MainEv.acquire = if initOk then 1 else 0)
    ∧ ((runMain initOk interrupt fetchFor max_pages keywords).1.getLast?
        = if initOk then some MainEv.quit else none) := by
  cases initOk with
  | false => simp [runMain]
  | true =>
    have hmapz : ∀ e : MainEv, (∀ x n, e ≠ MainEv.searchKw x n) →
        ((processedKeywords true interrupt keywords).map
            (fun k => MainEv.searchKw k 1)).count e = 0 := by
      intro e he
      rw [List.count_eq_zero]
      intro hmem
      obtain ⟨x, -, hx⟩ := List.mem_map.mp hmem
      exact he x 1 hx.symm
    have hev : (runMain true interrupt fetchFor max_pages keywords).1
        = [MainEv.acquire]
            ++ (processedKeywords true interrupt keywords).map
                (fun k => MainEv.searchKw k 1)
            ++ [MainEv.quit] := by
      simp [runMain]
    refine ⟨?_, ?_, ?_⟩
    · rw [hev, List.count_append, List.count_append,
        hmapz MainEv.quit (fun x n => MainEv.noConfusion)]
      decide
    · rw [hev, List.count_append, List.count_append,
        hmapz MainEv.acquire (fun x n => MainEv.noConfusion)]
      decide
    · rw [hev, if_pos rfl, List.getLast?_concat]

/-- C9: the reported aggregates: total pairs = |tcins| × |keywords| =
number of matrix cells, found pairs = number of non-absent cells (at
most the total), and under the enforced non-emptiness precondition the
total is positive, so the `total = 0` guard of the ratio is
unreachable and the ratio is exactly found / total. -/
theorem C9_stats (tcins keywords : List String)
    (rd : List (String × List TcinRecord))
    (h1 : tcins ≠ []) (h2 : keywords ≠ []) :
    0 < total_checks tcins keywords
    ∧ total_checks tcins keywords
        = cellCount (results_matrix tcins keywords rd)
    ∧ found_count (results_matrix tcins keywords rd)
        ≤ total_checks tcins keywords
    ∧ specSuccessRatio (found_count (results_matrix tcins keywords rd))
          (total_checks tcins keywords)
        = (found_count (results_matrix tcins keywords rd) : ℚ)
            / (total_checks tcins keywords : ℚ) := by
  have hpos : 0 < total_checks tcins keywords := by
    rw [total_checks]
    exact Nat.mul_pos (List.length_pos.mpr h1) (List.length_pos.mpr h2)
  have hcells : total_checks tcins keywords
      = cellCount (results_matrix tcins keywords rd) := by
    rw [total_checks, cellCount_results_matrix]
  refine ⟨hpos, hcells, ?_, ?_⟩
  · rw [hcells]
    exact found_le_cellCount _
  · rw [specSuccessRatio, if_neg (by omega)]

/-- Witness for `C9_stats` on a one-by-one input with no findings. -/
theorem C9_stats_witness :
    0 < total_checks ["111"] ["x"]
    ∧ total_checks ["111"] ["x"]
        = cellCount (results_matrix ["111"] ["x"] [])
    ∧ found_count (results_matrix ["111"] ["x"] [])
        ≤ total_checks ["111"] ["x"]
    ∧ specSuccessRatio (found_count (results_matrix ["111"] ["x"] []))
          (total_checks ["111"] ["x"])
        = (found_count (results_matrix ["111"] ["x"] []) : ℚ)
            / (total_checks ["111"] ["x"] : ℚ) :=
  C9_stats ["111"] ["x"] [] (by decide) (by decide)

end TargetTcin
